import Mathlib

/-!
Verification of the field binding/processing/validation core of a form
library (`wtforms/fields/core.py`) against its natural-language
specification.  Python source constructs are shallowly embedded as Lean
definitions: exceptions used as control signals become outcome values,
`None`-able values become `Option`, Python `dict`-like multi-valued form
submissions become association lists, and assertion failures or raised
`TypeError`s become `Option`/`Except` results.
-/

namespace WTForms

abbrev Msg := String

/-!
## Validator outcomes and the validation chain

A validator is a callable `(form, field) -> None` whose interesting
behaviour is which exception (if any) it raises.  We embed one invocation
of a validator as its outcome:

* `ok`      — the validator returned normally;
* `stop m`  — it raised `StopValidation`; `m = some s` models
  `StopValidation(s)` (one positional argument) and `m = none` models
  `StopValidation()` (no argument);
* `err m`   — it raised `ValidationError(m)`.
-/

inductive VOutcome where
  | ok : VOutcome
  | stop (m : Option Msg) : VOutcome
  | err (m : Msg) : VOutcome
deriving DecidableEq

/-- Messages appended for a caught `StopValidation`: the source runs
`if e.args and e.args[0]: self.errors.append(e.args[0])`, so the message is
appended only when an argument is present and truthy (a non-empty string). -/
def stopMsgs : Option Msg → List Msg
  | some m => if m = "" then [] else [m]
  | none => []

/-- Embeds `Field._run_validation_chain`, returning the pair
(was validation stopped?, messages appended to `self.errors` in order).
For each validator: `StopValidation` appends its truthy message and returns
`True` immediately (remaining validators are never invoked);
`ValidationError` appends its message and continues; a normal return
continues.  If the chain is exhausted the result is `False`. -/
def chainRun : List VOutcome → Bool × List Msg
  | [] => (false, [])
  | VOutcome.ok :: rest => chainRun rest
  | VOutcome.stop m :: _ => (true, stopMsgs m)
  | VOutcome.err m :: rest =>
    let r := chainRun rest
    (r.1, m :: r.2)

/-- Number of validators actually invoked by `_run_validation_chain` before
it returns: everything up to and including the first `StopValidation`. -/
def chainInvoked : List VOutcome → Nat
  | [] => 0
  | VOutcome.ok :: rest => 1 + chainInvoked rest
  | VOutcome.stop _ :: _ => 1
  | VOutcome.err _ :: rest => 1 + chainInvoked rest

/-- Embeds `Field.validate`.  `pre` is the outcome of the `pre_validate` hook
(caught like a chain validator, except that a `StopValidation` here skips
the whole chain); `post` is the `ValidationError` message (if any) raised by
the `post_validate` hook.  `processErrors` seeds `self.errors`
(`self.errors = list(self.process_errors)`).  The chain is
`self.validators` followed by `extra_validators`.  Returns
(`len(self.errors) == 0`, final `self.errors`).  The base `Field`'s hooks
are no-ops, i.e. `pre = .ok`, `post = none`. -/
def fieldValidate (pre : VOutcome) (post : Option Msg) (processErrors : List Msg)
    (validators extraValidators : List VOutcome) : Bool × List Msg :=
  let preR : Bool × List Msg :=
    match pre with
    | VOutcome.ok => (false, processErrors)
    | VOutcome.stop m => (true, processErrors ++ stopMsgs m)
    | VOutcome.err m => (false, processErrors ++ [m])
  let chainR : List Msg :=
    if preR.1 then preR.2
    else preR.2 ++ (chainRun (validators ++ extraValidators)).2
  let errs := chainR ++ (match post with | some m => [m] | none => [])
  (errs.isEmpty, errs)

/-!
## Form submissions

A submission (`formdata`) is a multi-valued string-keyed structure.  We
embed it as an ordered association list of key/value pairs.  `k in formdata`
is key membership; `formdata.getlist(k)` is the ordered list of all values
recorded under `k`; iterating the submission yields its keys.
-/

abbrev FormData := List (String × String)

def fdKeys (f : FormData) : List String := f.map (·.1)

def fdContains (f : FormData) (k : String) : Bool := (fdKeys f).contains k

def fdGetlist (f : FormData) (k : String) : List String :=
  (f.filter (fun p => p.1 == k)).map (·.2)

/-!
## `Field.process`

The `default` constructor argument may be a plain value or a zero-argument
callable.  `process` resolves it with
`try: data = self.default()  except TypeError: data = self.default`:
calling a non-callable raises `TypeError` (caught, yielding the plain value
itself), and a callable either returns a value or may itself raise
`TypeError`, in which case the caught error makes `process` fall back to the
callable object itself.
-/

inductive PyDefault (ν : Type) where
  | plain (v : ν) : PyDefault ν
  | callable (selfVal : ν) (callResult : Option ν) : PyDefault ν

def resolveDefault {ν : Type} : PyDefault ν → ν
  | PyDefault.plain v => v
  | PyDefault.callable s r => match r with | some v => v | none => s

/-- The two type-specific coercion hooks of a field type.  `processData`
takes the object/default value and returns (new `self.data`, the message of
a raised-and-caught `ValueError`, if any).  `processFormdata` takes
`self.raw_data` and the current `self.data` and returns the same shape;
passing the current data lets a hook leave `self.data` untouched (the
`if not valuelist: return` early exit). -/
structure FieldOps (ν α : Type) where
  processData : ν → Option α × Option Msg
  processFormdata : List String → Option α → Option α × Option Msg

/-- Filters applied by `process`: a single `try` wraps the whole loop, so
the first `ValueError` keeps the data from before the failing filter and
short-circuits the remaining filters. -/
def applyFilters {α : Type} :
    List (Option α → Except Msg (Option α)) → Option α → Option α × Option Msg
  | [], d => (d, none)
  | f :: fs, d =>
    match f d with
    | Except.ok d2 => applyFilters fs d2
    | Except.error m => (d, some m)

def errList : Option Msg → List Msg
  | some m => [m]
  | none => []

/-- The state a `Field` is left in by `process`.  `rawData = none` models
the class-level `raw_data = None` that is never assigned when no submission
is supplied. -/
structure FState (ν α : Type) where
  objectData : ν
  data : Option α
  rawData : Option (List String)
  processErrors : List Msg

/-- Embeds `Field.process(formdata, data, extra_filters)` (the `filters` argument
stands for `self.filters` followed by `extra_filters`).  Steps, in source
order: reset `process_errors`; resolve the default when no object value is
given; store `object_data`; run `process_data` catching `ValueError`; if a
submission is supplied (`formdata is not None`), set `raw_data` to the full
value list when the key is present and to `[]` otherwise, then always run
`process_formdata(self.raw_data)` catching `ValueError`; finally run the
filters catching the first `ValueError`. -/
def fieldProcess {ν α : Type} (ops : FieldOps ν α) (dflt : PyDefault ν)
    (name : String) (fd : Option FormData) (objValue : Option ν)
    (filters : List (Option α → Except Msg (Option α))) : FState ν α :=
  let objectData : ν :=
    match objValue with
    | some v => v
    | none => resolveDefault dflt
  let pd := ops.processData objectData
  let afterFd : Option α × Option (List String) × List Msg :=
    match fd with
    | none => (pd.1, none, [])
    | some f =>
      let r := if fdContains f name then fdGetlist f name else []
      let pf := ops.processFormdata r pd.1
      (pf.1, some r, errList pf.2)
  let fl := applyFilters filters afterFd.1
  { objectData := objectData
    data := fl.1
    rawData := afterFd.2.1
    processErrors := errList pd.2 ++ afterFd.2.2 ++ errList fl.2 }

/-!
## The concrete coercion hooks used by the claims

Python's numeric constructors `int(...)`, `float(...)` and
`decimal.Decimal(...)` are external builtins; they are embedded as abstract
parsing functions `String → Option _` (`none` models the raised
`ValueError`/`InvalidOperation`).  The fixed user-facing messages follow the
source (`gettext` is the identity `DummyTranslations`).
-/

def intCoerceMsg : Msg := "Not a valid integer value."
def floatCoerceMsg : Msg := "Not a valid float value."
def decimalCoerceMsg : Msg := "Not a valid decimal value."

/-- Embeds `IntegerField`: `process_data` stores `int(value)` (`None`/unset gives
`None`); `process_formdata` returns on an empty list, otherwise parses
`valuelist[0]`, setting `data = None` and raising the fixed message on
failure.  Object values are already integers here, so `int(value)` on them
is the identity. -/
def intOps (parseInt : String → Option Int) : FieldOps (Option Int) Int where
  processData v :=
    match v with
    | none => (none, none)
    | some n => (some n, none)
  processFormdata raw d :=
    match raw with
    | [] => (d, none)
    | v :: _ =>
      match parseInt v with
      | some n => (some n, none)
      | none => (none, some intCoerceMsg)

/-- Embeds `FloatField`: inherits the identity `process_data`; `process_formdata`
parses `valuelist[0]` with `float(...)`. -/
def floatOps (F : Type) (parseFloat : String → Option F) : FieldOps (Option F) F where
  processData v := (v, none)
  processFormdata raw d :=
    match raw with
    | [] => (d, none)
    | v :: _ =>
      match parseFloat v with
      | some x => (some x, none)
      | none => (none, some floatCoerceMsg)

/-- Embeds `DecimalField` with `use_locale=False`: inherits the identity
`process_data`; `process_formdata` parses `valuelist[0]` with
`decimal.Decimal(...)`. -/
def decOps (D : Type) (parseDec : String → Option D) : FieldOps (Option D) D where
  processData v := (v, none)
  processFormdata raw d :=
    match raw with
    | [] => (d, none)
    | v :: _ =>
      match parseDec v with
      | some x => (some x, none)
      | none => (none, some decimalCoerceMsg)

/-- Embeds `StringField`: identity `process_data`; `process_formdata` stores
`valuelist[0]` when the list is non-empty. -/
def strOps : FieldOps (Option String) String where
  processData v := (v, none)
  processFormdata raw d :=
    match raw with
    | [] => (d, none)
    | v :: _ => (some v, none)

/-- Embeds `BooleanField`: `process_data` stores `bool(value)` (object values are
embedded by their truthiness); `process_formdata` stores `False` when the
list is empty or its first value is in `false_values`, else `True`.  The
default `false_values` tuple `(False, "false", "")` restricted to the wire
strings it can match is `["false", ""]`. -/
def boolOps (falseValues : List String) : FieldOps Bool Bool where
  processData v := (some v, none)
  processFormdata raw _ :=
    match raw with
    | [] => (some false, none)
    | v :: _ => if v ∈ falseValues then (some false, none) else (some true, none)

/-- Python values as seen by the base `Field`'s identity coercion:
enough structure to tell a wire string from a function object. -/
inductive PyObj where
  | str (s : String) : PyObj
  | func (id : Nat) : PyObj
deriving DecidableEq

/-- The base `Field`'s hooks: `process_data` stores the value unchanged and
`process_formdata` stores `valuelist[0]` (a wire string) when present. -/
def baseOps : FieldOps PyObj PyObj where
  processData v := (some v, none)
  processFormdata raw d :=
    match raw with
    | [] => (d, none)
    | v :: _ => (some (PyObj.str v), none)

/-!
## `FieldList`

Entry object data is embedded as wire-level strings (`Option String`, with
`none` for the `unset_value` placeholder); only the list-level bookkeeping
(indices, names, order, counts) matters for the claims, so an entry records
the inputs its bound field was processed with rather than a full sub-field
state.
-/

structure FLEntry where
  index : Int
  name : String
  objData : Option String
deriving DecidableEq

structure FLConfig where
  /-- `self.short_name`; the claims use an empty enclosing prefix, so
  `self.name = self.short_name`. -/
  shortName : String
  minEntries : Nat
  /-- `none` models `max_entries=None`. -/
  maxEntries : Option Nat
  /-- `self.default`, resolved: the stock default is the literal `()`, for
  which `try: self.default() except TypeError: self.default` yields the
  literal itself. -/
  defaultData : List String

structure FLState where
  entries : List FLEntry
  lastIndex : Int
  objectData : List String
deriving DecidableEq

/-- A freshly constructed `FieldList`: `self.last_index = -1`, no entries. -/
def flInit : FLState := { entries := [], lastIndex := -1, objectData := [] }

/-- The `_add_entry` assertion guard
`not self.max_entries or len(self.entries) < self.max_entries`
(`max_entries = 0` is falsy, disabling the guard). -/
def maxAllows (maxEntries : Option Nat) (len : Nat) : Bool :=
  match maxEntries with
  | none => true
  | some m => m == 0 || len < m

/-- Embeds `FieldList._add_entry(formdata, data, index)`: asserts the guard
(`none` models the `AssertionError`), assigns index `last_index + 1` when
no index is given, updates `last_index` to the assigned index, and appends
a bound entry whose name is `"%s-%d" % (self.short_name, index)`. -/
def addEntry (cfg : FLConfig) (st : FLState) (idx : Option Int)
    (obj : Option String) : Option FLState :=
  if maxAllows cfg.maxEntries st.entries.length then
    let i := idx.getD (st.lastIndex + 1)
    some { st with
      entries := st.entries ++
        [{ index := i, name := cfg.shortName ++ "-" ++ toString i, objData := obj }]
      lastIndex := i }
  else none

/-- The submission branch of `process`: walk the selected indices in order,
pairing each with the next base-collection element (`unset` once the
collection is exhausted), adding one entry at each exact index. -/
def addIndexed (cfg : FLConfig) : List Nat → List String → FLState → Option FLState
  | [], _, st => some st
  | i :: is, [], st =>
    match addEntry cfg st (some (Int.ofNat i)) none with
    | none => none
    | some st2 => addIndexed cfg is [] st2
  | i :: is, d :: ds, st =>
    match addEntry cfg st (some (Int.ofNat i)) (some d) with
    | none => none
    | some st2 => addIndexed cfg is ds st2

/-- The no-submission branch of `process`: one entry per base-collection
element at sequential indices. -/
def addSeq (cfg : FLConfig) : List String → FLState → Option FLState
  | [], st => some st
  | d :: ds, st =>
    match addEntry cfg st none (some d) with
    | none => none
    | some st2 => addSeq cfg ds st2

/-- Adds `n` blank entries (`_add_entry(formdata)` with unset data). -/
def addBlanks (cfg : FLConfig) : Nat → FLState → Option FLState
  | 0, st => some st
  | n + 1, st =>
    match addEntry cfg st none none with
    | none => none
    | some st2 => addBlanks cfg n st2

/-- Embeds `while len(self.entries) < self.min_entries: self._add_entry(formdata)`.
Each iteration appends exactly one entry, so the loop runs exactly
`min_entries - len(entries)` times (truncated subtraction). -/
def padEntries (cfg : FLConfig) (st : FLState) : Option FLState :=
  addBlanks cfg (cfg.minEntries - st.entries.length) st

/-- Python `str.isdigit` for ASCII strings (as character lists): non-empty
and all digits. -/
def isDigits (cs : List Char) : Bool := !cs.isEmpty && cs.all Char.isDigit

/-- Python `int(...)` on an all-digits string (as a character list). -/
def digitsToNat (cs : List Char) : Nat :=
  cs.foldl (fun a c => a * 10 + (c.toNat - 48)) 0

/-- Embeds `FieldList._extract_indices(prefix, formdata)`: for every key that
merely *starts with* the list's name, drop `len(prefix) + 1` characters
(the character right after the name is skipped without being checked),
take the segment before the first hyphen (`k.split("-", 1)[0]`), and yield
its integer value when it is all digits.  Strings are handled as their
character lists: `k.startswith(nm)` is `nm.data.isPrefixOf k.data`,
slicing is `List.drop`, and the first hyphen-delimited segment is
`takeWhile (not hyphen)`. -/
def extractIndices (nm : String) (keys : List String) : List Nat :=
  keys.filterMap (fun k =>
    if nm.data.isPrefixOf k.data then
      let seg := (k.data.drop (nm.length + 1)).takeWhile (fun c => c != '-')
      if isDigits seg then some (digitsToNat seg) else none
    else none)

/-- Embeds `sorted(set(xs))`: deduplicate, then sort ascending. -/
def sortedDedup (l : List Nat) : List Nat :=
  List.insertionSort (· ≤ ·) l.dedup

/-- Embeds `if self.max_entries: indices = indices[: self.max_entries]`
(again, `max_entries = 0` is falsy and disables the truncation). -/
def applyMax (maxEntries : Option Nat) (l : List Nat) : List Nat :=
  match maxEntries with
  | none => l
  | some m => if m = 0 then l else l.take m

/-- Embeds `FieldList.process(formdata, data, extra_filters)` for a list whose
filters are empty (construction rejects filters).  `objValue = none` models
`data=unset_value`; an unset or falsy (empty) collection falls back to the
resolved default.  `if formdata:` is a truthiness test, so an empty
submission takes the no-submission branch.  Entries are always rebuilt from
scratch; `last_index` is carried over from `st0`.  The result is `none`
when an `_add_entry` assertion fires. -/
def flProcess (cfg : FLConfig) (fd : Option FormData)
    (objValue : Option (List String)) (st0 : FLState) : Option FLState :=
  let data :=
    match objValue with
    | none => cfg.defaultData
    | some l => if l.isEmpty then cfg.defaultData else l
  let st : FLState := { st0 with entries := [], objectData := data }
  let built :=
    match fd with
    | some f =>
      if f.isEmpty then addSeq cfg data st
      else
        let indices :=
          applyMax cfg.maxEntries (sortedDedup (extractIndices cfg.shortName (fdKeys f)))
        addIndexed cfg indices data st
    | none => addSeq cfg data st
  Option.bind built (padEntries cfg)

/-- Modelled from the spec: the index-extraction procedure exactly as the
specification words it — "every integer index `i` appearing as
`{name}-{i}...` (the first hyphen-delimited segment after `name + "-"`
that parses as an integer)", i.e. only keys that start with the name
followed by a literal hyphen contribute. -/
def specExtractIndices (nm : String) (keys : List String) : List Nat :=
  keys.filterMap (fun k =>
    if (nm ++ "-").data.isPrefixOf k.data then
      let seg := (k.data.drop (nm.length + 1)).takeWhile (fun c => c != '-')
      if isDigits seg then some (digitsToNat seg) else none
    else none)

/-!
## `FieldList` operation sequences (for the index-reuse claim)

A trace records, besides the list state, every index ever assigned by an
entry creation, in order of assignment.
-/

inductive FLOp where
  | appendE : FLOp
  | popE : FLOp
  | processOp (fd : Option FormData) (objValue : Option (List String)) : FLOp

structure FLTrace where
  st : FLState
  assigned : List Int
deriving DecidableEq

/-- One `FieldList` operation.  `append_entry(data)` is
`_add_entry(data=data)` (never fed a submission; unset data here).
`pop_entry()` is `self.entries.pop()` (an `IndexError` on an empty list,
modelled as `none`) followed by `self.last_index -= 1`.  `process` rebuilds
the entries; every rebuilt entry's index was assigned by an `_add_entry`
call during the rebuild. -/
def runOp (cfg : FLConfig) : FLOp → FLTrace → Option FLTrace
  | FLOp.appendE, t =>
    match addEntry cfg t.st none none with
    | none => none
    | some st2 => some { st := st2, assigned := t.assigned ++ [st2.lastIndex] }
  | FLOp.popE, t =>
    if t.st.entries.isEmpty then none
    else
      some { st := { t.st with
                     entries := t.st.entries.dropLast,
                     lastIndex := t.st.lastIndex - 1 },
             assigned := t.assigned }
  | FLOp.processOp fd objValue, t =>
    match flProcess cfg fd objValue t.st with
    | none => none
    | some st2 => some { st := st2, assigned := t.assigned ++ st2.entries.map (·.index) }

def runOps (cfg : FLConfig) : List FLOp → FLTrace → Option FLTrace
  | [], t => some t
  | op :: ops, t =>
    match runOp cfg op t with
    | none => none
    | some t2 => runOps cfg ops t2

/-!
## `FieldList.validate` and `FormField.validate`

`FieldList.validate` starts from `self.errors = []` (not from
`process_errors`), validates every entry first — appending each entry's
error *list* to `self.errors` — resets `self.errors` to `[]` when no entry
error list is truthy (non-empty), and only then runs the list's own
validator chain (whose stop flag is discarded).  Its `errors` list is thus
heterogeneous: entry error lists mixed with the chain's message strings.
-/

inductive FLErr where
  | lmsg (m : Msg) : FLErr
  | entry (es : List Msg) : FLErr
deriving DecidableEq

/-- Embeds `FieldList.validate(form, extra_validators)` given each entry's
validation result (the entry's final error list). -/
def fieldListValidate (entryErrors : List (List Msg))
    (validators extraValidators : List VOutcome) : Bool × List FLErr :=
  let errs0 : List FLErr := entryErrors.map FLErr.entry
  let errs1 := if entryErrors.all List.isEmpty then [] else errs0
  let errs2 := errs1 ++ (chainRun (validators ++ extraValidators)).2.map FLErr.lmsg
  (errs2.isEmpty, errs2)

/-- Embeds `FormField.validate(form, extra_validators)`: raises `TypeError`
(modelled as `Except.error ()`) when any extra validators are supplied, and
otherwise returns the enclosed form's own `validate()` result, running no
hooks and no chain of its own. -/
def formFieldValidate (innerResult : Bool) (extraValidators : List VOutcome) :
    Except Unit Bool :=
  if extraValidators.isEmpty then Except.ok innerResult else Except.error ()

/-!
## `FormField.process` / `FormField.populate_obj`

The populate target's relevant attribute is embedded as `Option Obj`
(`none` covers both a missing attribute and one holding `None`, exactly the
cases `getattr(obj, name, None) ... is None` collapses).  An object is an
attribute map from names to string data.
-/

abbrev Obj := List (String × String)

/-- Python `setattr(o, n, v)` on an attribute map: any existing binding for
`n` is discarded and the new one recorded (attribute maps are unordered, so
the binding order carries no meaning). -/
def setAttr (o : Obj) (n : String) (v : String) : Obj :=
  (n, v) :: o.filter (fun p => p.1 != n)

def attrLookup (o : Obj) (n : String) : Option String :=
  (o.find? (fun p => p.1 == n)).map (·.2)

/-- Embeds `Form.populate_obj(obj)` of the enclosed form: one destructive
`setattr(obj, name, field.data)` per inner field, in order. -/
def formPopulateObj (innerFields : List (String × String)) (o : Obj) : Obj :=
  innerFields.foldl (fun acc p => setAttr acc p.1 p.2) o

/-- The value of `self._obj` after `FormField.process(formdata, data)`.
`__init__` sets `_obj = None`; `process` assigns
`self._obj = data` only inside the `if data is unset_value:` branch, after
resolving the default — so an explicitly supplied `data` leaves `_obj` as
`None` even though `self.object_data` is set to it.
`suppliedData = none` models `data=unset_value`; `some d` models an
explicitly supplied object (`d = none` being Python `None`). -/
def formFieldObjAfterProcess (resolvedDefault : Option Obj)
    (suppliedData : Option (Option Obj)) : Option Obj :=
  match suppliedData with
  | none => resolvedDefault
  | some _ => none

/-- Embeds `FormField.populate_obj(obj, name)`: `candidate = getattr(obj, name,
None)`; when that is `None`, fall back to `self._obj`, raising `TypeError`
(`Except.error ()`) when `_obj` is `None` too; then let the enclosed form
populate the candidate attribute-by-attribute and reassign it onto the
target attribute (the returned `Obj` is the value assigned to
`obj.<name>`). -/
def formFieldPopulateObj (innerFields : List (String × String))
    (theObj : Option Obj) (targetAttr : Option Obj) : Except Unit Obj :=
  match targetAttr with
  | some c => Except.ok (formPopulateObj innerFields c)
  | none =>
    match theObj with
    | some c => Except.ok (formPopulateObj innerFields c)
    | none => Except.error ()

/-- Modelled from the spec: `populateObject` as the specification words it
— "prefers the existing attribute on `target`, falling back to the
`objectData` originally supplied; fails if neither exists" — i.e. the
fallback is `object_data` (the value `process` stored), not `_obj`. -/
def specFormFieldPopulateObj (innerFields : List (String × String))
    (objectData : Option Obj) (targetAttr : Option Obj) : Except Unit Obj :=
  match targetAttr with
  | some c => Except.ok (formPopulateObj innerFields c)
  | none =>
    match objectData with
    | some c => Except.ok (formPopulateObj innerFields c)
    | none => Except.error ()

end WTForms

open WTForms

theorem fdGetlist_ne_nil_of_contains (f : FormData) (k : String)
    (h : fdContains f k = true) : fdGetlist f k ≠ [] := by
  induction f with
  | nil => simp [fdContains, fdKeys] at h
  | cons p rest ih =>
    by_cases hk : p.1 = k
    · simp [fdGetlist, hk]
    · have h2 : fdContains rest k = true := by
        have h' := h
        simp [fdContains, fdKeys] at h' ⊢
        rcases h' with h' | h'
        · exact absurd h'.symm hk
        · exact h'
      simpa [fdGetlist, hk] using ih h2

theorem fdContains_of_getlist (f : FormData) (k : String) (v : String)
    (vs : List String) (h : fdGetlist f k = v :: vs) : fdContains f k = true := by
  induction f with
  | nil => simp [fdGetlist] at h
  | cons p rest ih =>
    by_cases hk : p.1 = k
    · simp [fdContains, fdKeys, hk]
    · have h2 : fdGetlist rest k = v :: vs := by simpa [fdGetlist, hk] using h
      have h3 := ih h2
      simp [fdContains, fdKeys] at h3 ⊢
      exact Or.inr h3

/-- **C1.** During `Field.validate`, the validator chain (the field's
validators followed by the extra validators, in order) halts immediately on
`StopValidation`, appending its message to `errors` only when a non-empty
message is present, while a plain `ValidationError` has its message appended
and the chain continues; for a field with validators
`[v1 raising StopValidation("stop"), v2 raising ValidationError]`, after
`validate` the errors are exactly `["stop"]` and `v2` is never invoked. -/
theorem C1_validation_chain_halting :
    (∀ (m : WTForms.Msg) (rest : List WTForms.VOutcome), m ≠ "" →
      WTForms.chainRun (WTForms.VOutcome.stop (some m) :: rest) = (true, [m]) ∧
      WTForms.chainInvoked (WTForms.VOutcome.stop (some m) :: rest) = 1) ∧
    (∀ (rest : List WTForms.VOutcome),
      WTForms.chainRun (WTForms.VOutcome.stop none :: rest) = (true, []) ∧
      WTForms.chainRun (WTForms.VOutcome.stop (some "") :: rest) = (true, [])) ∧
    (∀ (m : WTForms.Msg) (rest : List WTForms.VOutcome),
      WTForms.chainRun (WTForms.VOutcome.err m :: rest) =
        ((WTForms.chainRun rest).1, m :: (WTForms.chainRun rest).2) ∧
      WTForms.chainInvoked (WTForms.VOutcome.err m :: rest) =
        1 + WTForms.chainInvoked rest) ∧
    WTForms.fieldValidate WTForms.VOutcome.ok none []
        [WTForms.VOutcome.stop (some "stop"), WTForms.VOutcome.err "never runs"] [] =
      (false, ["stop"]) ∧
    WTForms.chainInvoked
        [WTForms.VOutcome.stop (some "stop"), WTForms.VOutcome.err "never runs"] = 1 := by
  refine ⟨?_, ?_, ?_, ?_, ?_⟩
  · intro m rest hm
    constructor
    · simp [WTForms.chainRun, WTForms.stopMsgs, hm]
    · rfl
  · intro rest
    exact ⟨rfl, rfl⟩
  · intro m rest
    exact ⟨rfl, rfl⟩
  · rfl
  · rfl

/-- Witness for C1 at concrete inputs. -/
theorem C1_validation_chain_halting_witness :
    WTForms.chainRun
        [WTForms.VOutcome.stop (some "stop"), WTForms.VOutcome.err "x"] = (true, ["stop"]) ∧
    WTForms.chainInvoked
        [WTForms.VOutcome.stop (some "stop"), WTForms.VOutcome.err "x"] = 1 :=
  C1_validation_chain_halting.1 "stop" [WTForms.VOutcome.err "x"] (by decide)

theorem addEntry_some (cfg : FLConfig) (st : FLState) (idx : Option Int)
    (obj : Option String) (st2 : FLState) (h : addEntry cfg st idx obj = some st2) :
    maxAllows cfg.maxEntries st.entries.length = true ∧
    st2.entries = st.entries ++
      [{ index := idx.getD (st.lastIndex + 1),
         name := cfg.shortName ++ "-" ++ toString (idx.getD (st.lastIndex + 1)),
         objData := obj }] ∧
    st2.lastIndex = idx.getD (st.lastIndex + 1) ∧
    st2.objectData = st.objectData := by
  unfold addEntry at h
  split at h
  · next hg =>
    injection h with h2
    subst h2
    exact ⟨hg, rfl, rfl, rfl⟩
  · cases h

theorem addEntry_length (cfg : FLConfig) (st : FLState) (idx : Option Int)
    (obj : Option String) (st2 : FLState) (h : addEntry cfg st idx obj = some st2) :
    st2.entries.length = st.entries.length + 1 := by
  rcases addEntry_some cfg st idx obj st2 h with ⟨-, he, -, -⟩
  simp [he]

theorem addEntry_le (cfg : FLConfig) (st : FLState) (idx : Option Int)
    (obj : Option String) (st2 : FLState) (m : Nat)
    (hm : cfg.maxEntries = some m) (hm0 : m ≠ 0)
    (h : addEntry cfg st idx obj = some st2) :
    st2.entries.length ≤ m := by
  rcases addEntry_some cfg st idx obj st2 h with ⟨hg, he, -, -⟩
  rw [hm] at hg
  simp [maxAllows, hm0] at hg
  simp [he]
  omega

theorem addIndexed_entries (cfg : FLConfig) (is : List Nat) :
    ∀ (ds : List String) (st st2 : FLState),
    addIndexed cfg is ds st = some st2 →
    st2.entries.map (fun e => (e.index, e.name)) =
      st.entries.map (fun e => (e.index, e.name)) ++
        is.map (fun i => ((Int.ofNat i : Int),
          cfg.shortName ++ "-" ++ toString (Int.ofNat i))) := by
  induction is with
  | nil =>
    intro ds st st2 h
    cases ds <;> (simp [addIndexed] at h; subst h; simp)
  | cons i is ih =>
    intro ds st st2 h
    cases ds with
    | nil =>
      rcases ha : addEntry cfg st (some (Int.ofNat i)) none with - | st3
      · rw [addIndexed, ha] at h; cases h
      · rw [addIndexed, ha] at h
        have h2 := ih [] st3 st2 h
        rcases addEntry_some cfg st (some (Int.ofNat i)) none st3 ha with ⟨-, he, -, -⟩
        simp [h2, he]
    | cons d ds =>
      rcases ha : addEntry cfg st (some (Int.ofNat i)) (some d) with - | st3
      · rw [addIndexed, ha] at h; cases h
      · rw [addIndexed, ha] at h
        have h2 := ih ds st3 st2 h
        rcases addEntry_some cfg st (some (Int.ofNat i)) (some d) st3 ha with ⟨-, he, -, -⟩
        simp [h2, he]

theorem sortedDedup_pairwise_lt (l : List Nat) : (sortedDedup l).Pairwise (· < ·) := by
  have hs : (sortedDedup l).Sorted (· ≤ ·) := List.sorted_insertionSort _ _
  have hn : (sortedDedup l).Nodup :=
    (List.Perm.nodup_iff (List.perm_insertionSort _ _)).mpr (List.nodup_dedup l)
  exact List.Sorted.lt_of_le hs hn

theorem applyMax_pairwise_lt (maxEntries : Option Nat) (l : List Nat)
    (h : l.Pairwise (· < ·)) : (applyMax maxEntries l).Pairwise (· < ·) := by
  rcases maxEntries with - | m
  · exact h
  · by_cases hm : m = 0
    · simpa [applyMax, hm] using h
    · simpa [applyMax, hm] using List.Pairwise.sublist (List.take_sublist m l) h

theorem pairwise_take_drop (l : List Nat) (m : Nat) (h : l.Pairwise (· < ·)) :
    ∀ i ∈ l.take m, ∀ j ∈ l.drop m, i < j := by
  have h2 : (l.take m ++ l.drop m).Pairwise (· < ·) := by
    rwa [List.take_append_drop]
  exact fun i hi j hj => (List.pairwise_append.mp h2).2.2 i hi j hj

/-- C2, amended.  When a `FieldList` processes a non-empty submission, the
entry indices are obtained from every submission key that merely starts
with the list's name — the character right after the name is skipped
without being checked to be a hyphen — by taking the first
hyphen-delimited segment of the remainder and keeping it when it is all
digits; the indices are deduplicated, sorted ascending, and (when
`maxEntries` is set and non-zero) truncated to the first `maxEntries`
(lowest indices win, higher ones silently ignored), and one entry is built
per selected index, at that exact index, in ascending order, with name
`shortName-index`. -/
theorem C2_fieldlist_index_selection
    (cfg : FLConfig) (f : FormData) (objValue : Option (List String))
    (st0 st : FLState) (hmin : cfg.minEntries = 0) (hf : f ≠ [])
    (h : flProcess cfg (some f) objValue st0 = some st) :
    st.entries.map (fun e => (e.index, e.name)) =
      (applyMax cfg.maxEntries (sortedDedup (extractIndices cfg.shortName (fdKeys f)))).map
        (fun i => ((Int.ofNat i : Int),
          cfg.shortName ++ "-" ++ toString (Int.ofNat i))) ∧
    (applyMax cfg.maxEntries
        (sortedDedup (extractIndices cfg.shortName (fdKeys f)))).Pairwise (· < ·) ∧
    (∀ m, cfg.maxEntries = some m → m ≠ 0 →
      ∀ i ∈ applyMax cfg.maxEntries (sortedDedup (extractIndices cfg.shortName (fdKeys f))),
        ∀ j ∈ (sortedDedup (extractIndices cfg.shortName (fdKeys f))).drop m, i < j) := by
  have hfe : f.isEmpty = false := by
    cases f with
    | nil => exact absurd rfl hf
    | cons p r => rfl
  refine ⟨?_, ?_, ?_⟩
  · simp only [flProcess, hfe, Bool.false_eq_true, if_false] at h
    obtain ⟨st2, hb, hp⟩ := Option.bind_eq_some.mp h
    have hpad : st = st2 := by
      unfold padEntries at hp
      rw [hmin] at hp
      simp [addBlanks] at hp
      exact hp.symm
    subst hpad
    have h3 := addIndexed_entries cfg _ _ _ _ hb
    simpa using h3
  · exact applyMax_pairwise_lt _ _ (sortedDedup_pairwise_lt _)
  · intro m hm hm0 i hi j hj
    rw [hm] at hi
    simp only [applyMax, hm0, if_false] at hi
    exact pairwise_take_drop _ m (sortedDedup_pairwise_lt _) i hi j hj

/-- Witness for C2 at the spec's concrete examples: indices 0, 2 and 5
submitted for list "x" with `minEntries = 0` give entries named exactly
`x-0`, `x-2`, `x-5` at those indices in that order; five submitted indices
under `maxEntries = 3` give exactly the three lowest. -/
theorem C2_fieldlist_index_selection_witness :
    (∃ st, flProcess ⟨"x", 0, none, []⟩
        (some [("x-0", "a"), ("x-2", "b"), ("x-5", "c")]) none flInit = some st ∧
      st.entries.map (fun e => (e.index, e.name)) =
        [(0, "x-0"), (2, "x-2"), (5, "x-5")]) ∧
    (∃ st, flProcess ⟨"x", 0, some 3, []⟩
        (some [("x-9", "a"), ("x-2", "b"), ("x-5", "c"), ("x-0", "d"), ("x-7", "e")])
        none flInit = some st ∧
      st.entries.map (fun e => (e.index, e.name)) =
        [(0, "x-0"), (2, "x-2"), (5, "x-5")]) := by
  constructor
  · have h : flProcess ⟨"x", 0, none, []⟩
        (some [("x-0", "a"), ("x-2", "b"), ("x-5", "c")]) none flInit =
        some ⟨[⟨0, "x-0", none⟩, ⟨2, "x-2", none⟩, ⟨5, "x-5", none⟩], 5, []⟩ := by decide
    refine ⟨_, h, ?_⟩
    rw [(C2_fieldlist_index_selection _ _ _ _ _ rfl (by simp) h).1]
    decide
  · have h : flProcess ⟨"x", 0, some 3, []⟩
        (some [("x-9", "a"), ("x-2", "b"), ("x-5", "c"), ("x-0", "d"), ("x-7", "e")])
        none flInit =
        some ⟨[⟨0, "x-0", none⟩, ⟨2, "x-2", none⟩, ⟨5, "x-5", none⟩], 5, []⟩ := by decide
    refine ⟨_, h, ?_⟩
    rw [(C2_fieldlist_index_selection _ _ _ _ _ rfl (by simp) h).1]
    decide

/-- Counterexample for C2 as stated: the code requires only that a key
*start with* the list's name — it never checks that the name is followed by
`"-"`.  The submission key `"x23"` for a list named `"x"` contributes index
3 (the code drops `len("x") + 1 = 2` characters, keeping `"3"`), although
no integer segment follows `"x-"` in it, so the spec's extraction yields no
index at all; the code builds entry `x-3` where the claim predicts no
entries. -/
theorem C2_counter_startswith_only :
    (flProcess ⟨"x", 0, none, []⟩ (some [("x23", "v")]) none flInit).map
        (fun s => s.entries.map (fun e => e.name)) = some ["x-3"] ∧
    specExtractIndices "x" ["x23"] = [] ∧
    extractIndices "x" ["x23"] = [3] := by
  refine ⟨?_, ?_, ?_⟩ <;> decide

theorem addBlanks_length (cfg : FLConfig) (n : Nat) :
    ∀ (st st2 : FLState), addBlanks cfg n st = some st2 →
    st2.entries.length = st.entries.length + n := by
  induction n with
  | zero =>
    intro st st2 h
    simp [addBlanks] at h
    simp [h]
  | succ n ih =>
    intro st st2 h
    rcases ha : addEntry cfg st none none with - | st3
    · rw [addBlanks, ha] at h; cases h
    · rw [addBlanks, ha] at h
      have h2 := ih st3 st2 h
      have h3 := addEntry_length cfg st none none st3 ha
      omega

theorem addBlanks_le (cfg : FLConfig) (m : Nat) (hm : cfg.maxEntries = some m)
    (hm0 : m ≠ 0) (n : Nat) :
    ∀ (st st2 : FLState), addBlanks cfg n st = some st2 →
    st.entries.length ≤ m → st2.entries.length ≤ m := by
  induction n with
  | zero =>
    intro st st2 h hle
    simp [addBlanks] at h
    simpa [h] using hle
  | succ n ih =>
    intro st st2 h hle
    rcases ha : addEntry cfg st none none with - | st3
    · rw [addBlanks, ha] at h; cases h
    · rw [addBlanks, ha] at h
      exact ih st3 st2 h (addEntry_le cfg st none none st3 m hm hm0 ha)

theorem addSeq_le (cfg : FLConfig) (m : Nat) (hm : cfg.maxEntries = some m)
    (hm0 : m ≠ 0) (ds : List String) :
    ∀ (st st2 : FLState), addSeq cfg ds st = some st2 →
    st.entries.length ≤ m → st2.entries.length ≤ m := by
  induction ds with
  | nil =>
    intro st st2 h hle
    simp [addSeq] at h
    simpa [h] using hle
  | cons d ds ih =>
    intro st st2 h hle
    rcases ha : addEntry cfg st none (some d) with - | st3
    · rw [addSeq, ha] at h; cases h
    · rw [addSeq, ha] at h
      exact ih st3 st2 h (addEntry_le cfg st none (some d) st3 m hm hm0 ha)

theorem addIndexed_le (cfg : FLConfig) (m : Nat) (hm : cfg.maxEntries = some m)
    (hm0 : m ≠ 0) (is : List Nat) :
    ∀ (ds : List String) (st st2 : FLState), addIndexed cfg is ds st = some st2 →
    st.entries.length ≤ m → st2.entries.length ≤ m := by
  induction is with
  | nil =>
    intro ds st st2 h hle
    cases ds <;> (simp [addIndexed] at h; subst h; exact hle)
  | cons i is ih =>
    intro ds st st2 h hle
    cases ds with
    | nil =>
      rcases ha : addEntry cfg st (some (Int.ofNat i)) none with - | st3
      · rw [addIndexed, ha] at h; cases h
      · rw [addIndexed, ha] at h
        exact ih [] st3 st2 h (addEntry_le cfg st _ none st3 m hm hm0 ha)
    | cons d ds =>
      rcases ha : addEntry cfg st (some (Int.ofNat i)) (some d) with - | st3
      · rw [addIndexed, ha] at h; cases h
      · rw [addIndexed, ha] at h
        exact ih ds st3 st2 h (addEntry_le cfg st _ (some d) st3 m hm hm0 ha)

/-- C4, amended.  After a `FieldList.process` call that completes (no
`_add_entry` assertion failure), `len(entries) >= minEntries` always holds
(short inputs are padded with blank entries), and
`len(entries) <= maxEntries` holds whenever `maxEntries` is set to a
*non-zero* value (the code tests `if self.max_entries:`, so `maxEntries =
0` is treated as unset and enforces nothing); a list with `minEntries = 3`,
no submission and no data produces exactly 3 blank entries at indices
0, 1, 2. -/
theorem C4_fieldlist_entry_count_bounds
    (cfg : FLConfig) (fd : Option FormData) (objValue : Option (List String))
    (st0 st : FLState) (h : flProcess cfg fd objValue st0 = some st) :
    cfg.minEntries ≤ st.entries.length ∧
    (∀ m, cfg.maxEntries = some m → 0 < m → cfg.minEntries ≤ m →
      st.entries.length ≤ m) ∧
    (flProcess ⟨"x", 3, none, []⟩ none none flInit).map
        (fun s => s.entries.map (fun e => e.index)) = some [0, 1, 2] := by
  unfold flProcess at h
  obtain ⟨st2, hb, hp⟩ := Option.bind_eq_some.mp h
  unfold padEntries at hp
  have hlen := addBlanks_length cfg _ _ _ hp
  refine ⟨by omega, ?_, by decide⟩
  intro m hm hm0 _
  have hm0' : m ≠ 0 := by omega
  have hst2 : st2.entries.length ≤ m := by
    have hstart : (0 : Nat) ≤ m := Nat.zero_le m
    rcases fd with - | f
    · simp only [] at hb
      exact addSeq_le cfg m hm hm0' _ _ _ hb (by simp)
    · by_cases hfe : f.isEmpty
      · simp only [hfe, if_true] at hb
        exact addSeq_le cfg m hm hm0' _ _ _ hb (by simp)
      · rw [Bool.not_eq_true] at hfe
        simp only [hfe, Bool.false_eq_true, if_false] at hb
        exact addIndexed_le cfg m hm hm0' _ _ _ _ hb (by simp)
  exact addBlanks_le cfg m hm hm0' _ _ _ hp hst2

/-- Witness for C4: the spec's padding example (`minEntries = 3`, no
submission, no data, three blank entries at indices 0, 1, 2) satisfies both
bounds with `maxEntries = 5`. -/
theorem C4_fieldlist_entry_count_bounds_witness :
    3 ≤ ((3 : Nat)) ∧
    (∃ st, flProcess ⟨"x", 3, some 5, []⟩ none none flInit = some st ∧
      3 ≤ st.entries.length ∧ st.entries.length ≤ 5 ∧
      st.entries.map (fun e => e.index) = [0, 1, 2]) := by
  refine ⟨le_refl 3, ?_⟩
  have h : flProcess ⟨"x", 3, some 5, []⟩ none none flInit =
      some ⟨[⟨0, "x-0", none⟩, ⟨1, "x-1", none⟩, ⟨2, "x-2", none⟩], 2, []⟩ := by decide
  have h2 := C4_fieldlist_entry_count_bounds ⟨"x", 3, some 5, []⟩ none none flInit _ h
  exact ⟨_, h, h2.1, h2.2.1 5 rfl (by decide) (by decide), by decide⟩

/-- Counterexample for C4 as stated: with `maxEntries = 0` (a set value;
`minEntries = 0 ≤ maxEntries`), submitting index 0 makes `process` complete
with one entry, violating `len(entries) <= maxEntries` — the code's
truthiness test `if self.max_entries:` treats 0 as "unset". -/
theorem C4_counter_max_entries_zero :
    (flProcess ⟨"x", 0, some 0, []⟩ (some [("x-0", "v")]) none flInit).map
        (fun s => s.entries.length) = some 1 ∧ ¬ (1 : Nat) ≤ 0 := by
  exact ⟨by decide, by omega⟩

/-- C6, amended.  `appendEntry` assigns index `lastIndex + 1` and raises
`lastIndex` to it, so `lastIndex` is monotonic and indices are fresh along
`process`/`appendEntry`-only runs; but `popEntry` decrements `lastIndex`,
so after any successful `appendEntry`, running `popEntry` followed by
another entry creation necessarily succeeds and assigns the *same* index
again — an index, once assigned, *is* reused after removal. -/
theorem C6_lastindex_append_pop
    (cfg : FLConfig) (t t1 : FLTrace)
    (h : runOp cfg FLOp.appendE t = some t1) :
    t1.st.lastIndex = t.st.lastIndex + 1 ∧
    t1.assigned = t.assigned ++ [t.st.lastIndex + 1] ∧
    ∃ t3, runOps cfg [FLOp.popE, FLOp.appendE] t1 = some t3 ∧
      t3.assigned = t.assigned ++ [t.st.lastIndex + 1, t.st.lastIndex + 1] ∧
      t3.st.lastIndex = t.st.lastIndex + 1 ∧
      t3.st.entries.length = t1.st.entries.length := by
  rcases ha : addEntry cfg t.st none none with - | st2
  · rw [runOp, ha] at h; cases h
  · rw [runOp, ha] at h
    injection h with h2
    subst h2
    rcases addEntry_some cfg t.st none none st2 ha with ⟨hg, he, hl, ho⟩
    simp only [Option.getD] at he hl
    refine ⟨hl, by rw [hl], ?_⟩
    have hne : st2.entries.isEmpty = false := by
      rw [he]
      simp
    have hdrop : st2.entries.dropLast = t.st.entries := by
      rw [he]
      simp
    have ha2 : addEntry cfg
        { st2 with entries := st2.entries.dropLast, lastIndex := st2.lastIndex - 1 }
        none none =
        some { st2 with
               entries := st2.entries.dropLast ++
                 [{ index := st2.lastIndex - 1 + 1,
                    name := cfg.shortName ++ "-" ++ toString (st2.lastIndex - 1 + 1),
                    objData := none }],
               lastIndex := st2.lastIndex - 1 + 1 } := by
      unfold addEntry
      rw [hdrop, hg]
      simp
    have hpop : runOp cfg FLOp.popE ⟨st2, t.assigned ++ [st2.lastIndex]⟩ =
        some ⟨{ st2 with
                entries := st2.entries.dropLast,
                lastIndex := st2.lastIndex - 1 },
              t.assigned ++ [st2.lastIndex]⟩ := by
      simp [runOp, hne]
    have happ : runOp cfg FLOp.appendE
        ⟨{ st2 with entries := st2.entries.dropLast, lastIndex := st2.lastIndex - 1 },
         t.assigned ++ [st2.lastIndex]⟩ =
        some ⟨{ st2 with
                entries := st2.entries.dropLast ++
                  [{ index := st2.lastIndex - 1 + 1,
                     name := cfg.shortName ++ "-" ++ toString (st2.lastIndex - 1 + 1),
                     objData := none }],
                lastIndex := st2.lastIndex - 1 + 1 },
              (t.assigned ++ [st2.lastIndex]) ++ [st2.lastIndex - 1 + 1]⟩ := by
      simp only [runOp]
      rw [ha2]
    refine ⟨⟨{ st2 with
               entries := st2.entries.dropLast ++
                 [{ index := st2.lastIndex - 1 + 1,
                    name := cfg.shortName ++ "-" ++ toString (st2.lastIndex - 1 + 1),
                    objData := none }],
               lastIndex := st2.lastIndex - 1 + 1 },
             (t.assigned ++ [st2.lastIndex]) ++ [st2.lastIndex - 1 + 1]⟩,
           ?_, ?_, ?_, ?_⟩
    · simp only [runOps]
      rw [hpop]
      simp only [runOps]
      rw [happ]
    · simp [hl]
    · simp [hl]
    · simp [he, hdrop]

/-- Witness for C6 at a concrete input: on a fresh list, `appendEntry`
assigns index 0, and `popEntry` followed by `appendEntry` assigns 0 again. -/
theorem C6_lastindex_append_pop_witness :
    ∃ t3, runOps ⟨"x", 0, none, []⟩ [FLOp.popE, FLOp.appendE]
        ⟨⟨[⟨0, "x-0", none⟩], 0, []⟩, [0]⟩ = some t3 ∧
      t3.assigned = [0, 0] := by
  have h : runOp ⟨"x", 0, none, []⟩ FLOp.appendE ⟨flInit, []⟩ =
      some ⟨⟨[⟨0, "x-0", none⟩], 0, []⟩, [0]⟩ := by decide
  obtain ⟨-, -, t3, h3, ha, -, -⟩ :=
    C6_lastindex_append_pop ⟨"x", 0, none, []⟩ ⟨flInit, []⟩ _ h
  exact ⟨t3, h3, by simpa using ha⟩

/-- Counterexample for C6 as stated: on a fresh `FieldList`, the operation
sequence `appendEntry; popEntry; appendEntry` assigns index 0 twice (the
popped index is reused), and after `appendEntry; popEntry` the `lastIndex`
has dropped from 0 back to -1 — it is neither monotonic nor a bound on
indices ever assigned. -/
theorem C6_counter_pop_reassigns_index :
    (runOps ⟨"x", 0, none, []⟩ [FLOp.appendE, FLOp.popE, FLOp.appendE]
        ⟨flInit, []⟩).map (fun t => t.assigned) = some [0, 0] ∧
    (runOps ⟨"x", 0, none, []⟩ [FLOp.appendE, FLOp.popE] ⟨flInit, []⟩).map
        (fun t => t.st.lastIndex) = some (-1) := by
  exact ⟨by decide, by decide⟩

/-- C3, amended.  When a submission is supplied, `rawData` is set to the
full ordered value list under the field's wire key when the key is present
and to the empty list otherwise; however, the type-specific
formdata-coercion step is invoked *whenever a submission is supplied*, even
on an empty `rawData`.  For the Integer, Float, Decimal and String field
types the step returns immediately on an empty list, so processing with the
key absent differs from processing without a submission only in `rawData`;
but `BooleanField`'s step sets `data` to `False` on an empty list. -/
theorem C3_process_rawdata_and_formdata_step
    {ν α : Type} (ops : FieldOps ν α) (dflt : PyDefault ν) (name : String)
    (f : FormData) (objValue : Option ν)
    (filters : List (Option α → Except Msg (Option α))) :
    ((fieldProcess ops dflt name (some f) objValue filters).rawData =
      some (if fdContains f name then fdGetlist f name else [])) ∧
    ((fieldProcess ops dflt name none objValue filters).rawData = none) ∧
    (fdContains f name = false →
      (∀ d, ops.processFormdata [] d = (d, none)) →
      fieldProcess ops dflt name (some f) objValue filters =
        { fieldProcess ops dflt name none objValue filters with rawData := some [] }) ∧
    (∀ (parseI : String → Option Int) (d : Option Int),
      (intOps parseI).processFormdata [] d = (d, none)) ∧
    (∀ (F : Type) (parseF : String → Option F) (d : Option F),
      (floatOps F parseF).processFormdata [] d = (d, none)) ∧
    (∀ (D : Type) (parseD : String → Option D) (d : Option D),
      (decOps D parseD).processFormdata [] d = (d, none)) ∧
    (∀ d : Option String, strOps.processFormdata [] d = (d, none)) ∧
    (∀ (fv : List String) (d : Option Bool),
      (boolOps fv).processFormdata [] d = (some false, none)) := by
  refine ⟨by simp [fieldProcess], rfl, ?_, fun _ _ => rfl, fun _ _ _ => rfl,
    fun _ _ _ => rfl, fun _ => rfl, fun _ _ => rfl⟩
  intro hc hop
  simp [fieldProcess, hc, hop, errList]

/-- Witness for C3 at a concrete input: a `StringField` named "s" processed
with a submission that lacks its key ends in the same state as without the
submission, except that `rawData` is the empty list. -/
theorem C3_process_rawdata_and_formdata_step_witness :
    fieldProcess strOps (PyDefault.plain none) "s" (some [("other", "v")]) none [] =
      { fieldProcess strOps (PyDefault.plain none) "s" none none [] with
        rawData := some [] } :=
  (C3_process_rawdata_and_formdata_step strOps (PyDefault.plain none) "s"
    [("other", "v")] none []).2.2.1 (by decide) (fun _ => rfl)

/-- Counterexample for C3 as stated: a `BooleanField` with default `True`,
processed with a submission that does not contain its key, ends with
`data = False` — its formdata-coercion step *was* invoked on the empty
`rawData` (processing the same field without a submission leaves
`data = True`). -/
theorem C3_counter_boolean_absent_key :
    (fieldProcess (boolOps ["false", ""]) (PyDefault.plain true) "flag"
        (some []) none []).data = some false ∧
    (fieldProcess (boolOps ["false", ""]) (PyDefault.plain true) "flag"
        none none []).data = some true := by
  exact ⟨by decide, by decide⟩

/-- C5, amended.  The scalar field subtypes inherit the base
pre/chain/post `validate` protocol, overriding only the hooks; but the
composite fields override `validate` itself.  `FieldList.validate` ignores
`processErrors`, validates every entry first and aggregates the entry error
lists, discards them all when every entry succeeded, then runs the list's
own chain: it succeeds exactly when every entry error list is empty and the
list's own chain appends no message, and in the all-entries-clean case its
errors are exactly the chain's messages (no stale empty placeholders).
`FormField.validate` delegates to the enclosed form and raises `TypeError`
on any extra validators. -/
theorem C5_composite_validate_override
    (entryErrors : List (List Msg)) (validators extraValidators : List VOutcome) :
    ((fieldListValidate entryErrors validators extraValidators).1 = true ↔
      ((∀ es ∈ entryErrors, es = []) ∧
        (chainRun (validators ++ extraValidators)).2 = [])) ∧
    ((∀ es ∈ entryErrors, es = []) →
      (fieldListValidate entryErrors validators extraValidators).2 =
        (chainRun (validators ++ extraValidators)).2.map FLErr.lmsg) ∧
    (∀ b : Bool, formFieldValidate b [] = Except.ok b) ∧
    (∀ (b : Bool) (v : VOutcome) (vs : List VOutcome),
      formFieldValidate b (v :: vs) = Except.error ()) := by
  have hall : (entryErrors.all List.isEmpty = true) ↔ (∀ es ∈ entryErrors, es = []) := by
    simp [List.all_eq_true, List.isEmpty_iff]
  refine ⟨?_, ?_, fun _ => rfl, fun _ _ _ => rfl⟩
  · by_cases hA : entryErrors.all List.isEmpty = true
    · have hfa := hall.mp hA
      simp [fieldListValidate, hA, hfa, List.isEmpty_iff]
      exact fun _ => hfa
    · have hne : entryErrors ≠ [] := by
        intro hn
        subst hn
        simp at hA
      have hforall : ¬ (∀ es ∈ entryErrors, es = []) := fun hfa => hA (hall.mpr hfa)
      rw [Bool.not_eq_true] at hA
      simp [fieldListValidate, hA, List.isEmpty_iff, hne, hforall]
  · intro hfa
    have hA := hall.mpr hfa
    simp [fieldListValidate, hA]

/-- Witness for C5 at a concrete input: a `FieldList` whose single entry
validated cleanly and whose own validator raises `ValidationError("m")`
ends with errors exactly `["m"]` (the empty entry placeholder is
discarded). -/
theorem C5_composite_validate_override_witness :
    (fieldListValidate [[]] [VOutcome.err "m"] []).2 = [FLErr.lmsg "m"] := by
  have h := (C5_composite_validate_override [[]] [VOutcome.err "m"] []).2.1 (by simp)
  rw [h]
  decide

/-- Counterexample for C5 as stated: `FieldList` overrides `validate`
itself.  A `FieldList` state with one entry whose validation produced
error "bad", no validators of its own and empty `processErrors` fails
`FieldList.validate` with the entry error list aggregated, while the base
`Field.validate` protocol on the same state (no validators, no-op hooks,
empty `processErrors`) succeeds with no errors. -/
theorem C5_counter_fieldlist_not_base_protocol :
    fieldListValidate [["bad"]] [] [] = (false, [FLErr.entry ["bad"]]) ∧
    fieldValidate VOutcome.ok none [] [] [] = (true, []) := by
  exact ⟨by decide, by decide⟩

/-- C7, amended.  `FormField.populate_obj(target, name)` prefers the
existing attribute on the target; when it is absent (or `None`) it falls
back to `self._obj` — the value captured at `process` time *only when no
explicit data was supplied* (the resolved default), not `objectData` in
general — and raises `TypeError` when that is `None` too; the enclosed
form then copies each inner field's data attribute-by-attribute onto the
chosen object, which is reassigned to the target attribute; an enclosed
form whose field "name" holds "Bob" therefore yields
`target.nested.name == "Bob"`, with a new inner object created and
assigned when the target attribute was previously absent and `_obj` was
captured. -/
theorem C7_formfield_populate_obj
    (innerFields : List (String × String)) (theObj : Option Obj)
    (targetAttr : Option Obj) :
    (∀ c, targetAttr = some c →
      formFieldPopulateObj innerFields theObj targetAttr =
        Except.ok (formPopulateObj innerFields c)) ∧
    (targetAttr = none → ∀ c, theObj = some c →
      formFieldPopulateObj innerFields theObj targetAttr =
        Except.ok (formPopulateObj innerFields c)) ∧
    (targetAttr = none → theObj = none →
      formFieldPopulateObj innerFields theObj targetAttr = Except.error ()) ∧
    (∀ dflt : Option Obj, formFieldObjAfterProcess dflt none = dflt) ∧
    (∀ dflt d : Option Obj, formFieldObjAfterProcess dflt (some d) = none) ∧
    (∀ o : Obj, attrLookup (formPopulateObj [("name", "Bob")] o) "name" =
      some "Bob") := by
  refine ⟨?_, ?_, ?_, fun _ => rfl, fun _ _ => rfl, ?_⟩
  · rintro c rfl
    rfl
  · rintro rfl c rfl
    rfl
  · rintro rfl rfl
    rfl
  · intro o
    simp [formPopulateObj, setAttr, attrLookup]

/-- Witness for C7 at the spec's concrete example: the target attribute is
absent, `_obj` holds a fresh empty object, and populating through the
enclosed form (field "name" = "Bob") assigns a new inner object whose
`name` attribute is "Bob". -/
theorem C7_formfield_populate_obj_witness :
    formFieldPopulateObj [("name", "Bob")] (some []) none =
      Except.ok [("name", "Bob")] ∧
    attrLookup [("name", "Bob")] "name" = some "Bob" := by
  have h := (C7_formfield_populate_obj [("name", "Bob")] (some []) none).2.1 rfl [] rfl
  exact ⟨by rw [h]; rfl, by decide⟩

/-- Counterexample for C7 as stated: when `process` received an explicitly
supplied object (here an empty object, stored as `objectData`), `_obj`
stays `None`; populating a target whose attribute is absent then raises
`TypeError` even though `objectData` exists, whereas the spec's procedure
("fall back to the objectData originally supplied to process()") would
succeed and produce `name == "Bob"`. -/
theorem C7_counter_fallback_is_obj_not_object_data :
    formFieldObjAfterProcess none (some (some [])) = none ∧
    formFieldPopulateObj [("name", "Bob")]
      (formFieldObjAfterProcess none (some (some []))) none = Except.error () ∧
    specFormFieldPopulateObj [("name", "Bob")] (some []) none =
      Except.ok [("name", "Bob")] := by
  refine ⟨rfl, rfl, ?_⟩
  rfl

/-- C8.  For each of the Integer, Float and Decimal field types with no
validators and default `None`, processing a submission whose first raw
value under the field's key fails the numeric parse leaves `data = None`
and records exactly the type's fixed message; the failure is caught inside
`process` (never propagated), and after `validate` (base no-op hooks, no
validators) the errors are exactly that one message. -/
theorem C8_numeric_invalid_formdata
    (name raw : String) (vs : List String) (f : FormData)
    (hget : fdGetlist f name = raw :: vs)
    (parseI : String → Option Int) (F D : Type)
    (parseF : String → Option F) (parseD : String → Option D)
    (hI : parseI raw = none) (hF : parseF raw = none) (hD : parseD raw = none) :
    ((fieldProcess (intOps parseI) (PyDefault.plain none) name (some f)
        none []).data = none ∧
     (fieldProcess (intOps parseI) (PyDefault.plain none) name (some f)
        none []).processErrors = [intCoerceMsg] ∧
     fieldValidate VOutcome.ok none
        (fieldProcess (intOps parseI) (PyDefault.plain none) name (some f)
          none []).processErrors [] [] = (false, [intCoerceMsg])) ∧
    ((fieldProcess (floatOps F parseF) (PyDefault.plain none) name (some f)
        none []).data = none ∧
     (fieldProcess (floatOps F parseF) (PyDefault.plain none) name (some f)
        none []).processErrors = [floatCoerceMsg] ∧
     fieldValidate VOutcome.ok none
        (fieldProcess (floatOps F parseF) (PyDefault.plain none) name (some f)
          none []).processErrors [] [] = (false, [floatCoerceMsg])) ∧
    ((fieldProcess (decOps D parseD) (PyDefault.plain none) name (some f)
        none []).data = none ∧
     (fieldProcess (decOps D parseD) (PyDefault.plain none) name (some f)
        none []).processErrors = [decimalCoerceMsg] ∧
     fieldValidate VOutcome.ok none
        (fieldProcess (decOps D parseD) (PyDefault.plain none) name (some f)
          none []).processErrors [] [] = (false, [decimalCoerceMsg])) := by
  have hc : fdContains f name = true := fdContains_of_getlist f name raw vs hget
  have hIe : (fieldProcess (intOps parseI) (PyDefault.plain none) name (some f)
      none []).processErrors = [intCoerceMsg] := by
    simp [fieldProcess, hc, hget, intOps, hI, applyFilters, errList, resolveDefault]
  have hFe : (fieldProcess (floatOps F parseF) (PyDefault.plain none) name (some f)
      none []).processErrors = [floatCoerceMsg] := by
    simp [fieldProcess, hc, hget, floatOps, hF, applyFilters, errList, resolveDefault]
  have hDe : (fieldProcess (decOps D parseD) (PyDefault.plain none) name (some f)
      none []).processErrors = [decimalCoerceMsg] := by
    simp [fieldProcess, hc, hget, decOps, hD, applyFilters, errList, resolveDefault]
  refine ⟨⟨?_, hIe, ?_⟩, ⟨?_, hFe, ?_⟩, ⟨?_, hDe, ?_⟩⟩
  · simp [fieldProcess, hc, hget, intOps, hI, applyFilters, resolveDefault]
  · rw [hIe]; decide
  · simp [fieldProcess, hc, hget, floatOps, hF, applyFilters, resolveDefault]
  · rw [hFe]; decide
  · simp [fieldProcess, hc, hget, decOps, hD, applyFilters, resolveDefault]
  · rw [hDe]; decide

/-- Witness for C8 at a concrete input: parsers that reject "abc" on a
submission carrying only `name = "n"`, value "abc". -/
theorem C8_numeric_invalid_formdata_witness :
    (fieldProcess (intOps (fun _ => none)) (PyDefault.plain none) "n"
        (some [("n", "abc")]) none []).data = none ∧
    (fieldProcess (intOps (fun _ => none)) (PyDefault.plain none) "n"
        (some [("n", "abc")]) none []).processErrors = [intCoerceMsg] ∧
    (fieldProcess (floatOps Int (fun _ => none)) (PyDefault.plain none) "n"
        (some [("n", "abc")]) none []).processErrors = [floatCoerceMsg] ∧
    (fieldProcess (decOps Int (fun _ => none)) (PyDefault.plain none) "n"
        (some [("n", "abc")]) none []).processErrors = [decimalCoerceMsg] := by
  have h := C8_numeric_invalid_formdata "n" "abc" [] [("n", "abc")] (by decide)
    (fun _ => none) Int Int (fun _ => none) (fun _ => none) rfl rfl rfl
  exact ⟨h.1.1, h.1.2.1, h.2.1.2.1, h.2.2.2.1⟩

/-- C9.  For every Boolean field processed with a submission: key present
with first raw value in the configured `falseValues` gives `data = False`;
key present with any other first value gives `data = True`; key absent
gives `data = False` — regardless of the default or supplied object
value. -/
theorem C9_boolean_formdata
    (fv : List String) (dflt : PyDefault Bool) (objValue : Option Bool)
    (name : String) (f : FormData) :
    (∀ v vs, fdGetlist f name = v :: vs →
      (fieldProcess (boolOps fv) dflt name (some f) objValue []).data =
        some (if v ∈ fv then false else true)) ∧
    (fdContains f name = false →
      (fieldProcess (boolOps fv) dflt name (some f) objValue []).data =
        some false) := by
  constructor
  · intro v vs hget
    have hc := fdContains_of_getlist f name v vs hget
    by_cases hm : v ∈ fv
    · simp [fieldProcess, hc, hget, boolOps, hm, applyFilters]
    · simp [fieldProcess, hc, hget, boolOps, hm, applyFilters]
  · intro hc
    simp [fieldProcess, hc, boolOps, applyFilters]

/-- Witness for C9 at concrete inputs: with the default false-set, value
"false" gives `False`, value "y" gives `True`, and an absent key gives
`False`. -/
theorem C9_boolean_formdata_witness :
    (fieldProcess (boolOps ["false", ""]) (PyDefault.plain false) "b"
        (some [("b", "false")]) none []).data = some false ∧
    (fieldProcess (boolOps ["false", ""]) (PyDefault.plain false) "b"
        (some [("b", "y")]) none []).data = some true ∧
    (fieldProcess (boolOps ["false", ""]) (PyDefault.plain false) "b"
        (some [("c", "y")]) none []).data = some false := by
  refine ⟨?_, ?_, ?_⟩
  · have h := (C9_boolean_formdata ["false", ""] (PyDefault.plain false) none "b"
      [("b", "false")]).1 "false" [] (by decide)
    rw [h]; decide
  · have h := (C9_boolean_formdata ["false", ""] (PyDefault.plain false) none "b"
      [("b", "y")]).1 "y" [] (by decide)
    rw [h]; decide
  · exact (C9_boolean_formdata ["false", ""] (PyDefault.plain false) none "b"
      [("c", "y")]).2 (by decide)

/-- C10.  `Field.process` distinguishes a callable default from a literal
one by calling it and catching `TypeError`; hence a callable default whose
own call raises `TypeError` is silently swallowed and the callable object
itself becomes `objectData` — and, for the base identity coercion, `data` —
with no process error recorded. -/
theorem C10_callable_default_typeerror (c : PyObj) (name : String) :
    (fieldProcess baseOps (PyDefault.callable c none) name none none
      []).objectData = c ∧
    (fieldProcess baseOps (PyDefault.callable c none) name none none
      []).data = some c ∧
    (fieldProcess baseOps (PyDefault.callable c none) name none none
      []).processErrors = [] := by
  exact ⟨rfl, rfl, rfl⟩
